import Mathlib

/-!
Verification development for the AttendanceAI attendance-tracking backend.

The embedding below follows the TypeScript source of the repository:
`src/server/storage.ts` (the storage layer: embedding parsing, Euclidean
nearest-neighbor employee lookup, attendance CRUD, dashboard and weekly
statistics) and the route handlers (the face-recognition endpoint, whose
attendance portion implements the per-day check-in and check-out state machine,
and the direct attendance-creation endpoint).

Modelling conventions:
* JavaScript numbers are embedded as exact rationals; all comparisons the
  source performs on distances are order comparisons, and the square root
  taken by the source is strictly monotone on nonnegative inputs, so the
  squared Euclidean distance is embedded instead, with thresholds squared
  accordingly.  `Number.POSITIVE_INFINITY` is the top element of `WithTop ℚ`.
* Database tables are embedded as lists of rows; the id generated by
  `randomUUID()` is passed in as an explicit `newId` argument; the values of
  `Math.random()` are passed in as explicit arguments.
* `JSON.parse` (a JavaScript builtin) is modelled for the value space the
  repository stores: arrays of decimal numeric literals parse to a list of
  rationals, and every other text (non-array JSON such as quoted strings, and
  texts that are not JSON at all) yields `none`, exactly the two source paths
  that both produce `null` in `parseEmbedding`.
-/

namespace AttendanceAI

/-- A row of the `employees` table (src/shared/schema.ts). -/
structure Employee where
  id : String
  firstName : String
  lastName : String
  email : String
  department : String
  position : String
  photoUrl : Option String
  faceEmbedding : Option String
  status : String
deriving Repr, DecidableEq

/-- A row of the `attendance_records` table (src/shared/schema.ts). -/
structure AttendanceRecord where
  id : String
  employeeId : String
  date : String
  checkIn : Option String
  checkOut : Option String
  status : String
  confidence : Option ℚ
deriving Repr, DecidableEq

/-- The `InsertAttendance` payload: an attendance row without its id. -/
structure InsertAttendance where
  employeeId : String
  date : String
  checkIn : Option String
  checkOut : Option String
  status : String
  confidence : Option ℚ
deriving Repr, DecidableEq

/-- JavaScript falsiness of a nullable string column: `null`, `undefined` and
the empty string are falsy. -/
def isFalsyStr (v : Option String) : Bool := v.getD "" == ""

/-- Numeric value of a decimal digit character. -/
def digitVal (c : Char) : ℕ := c.toNat - '0'.toNat

/-- Value of a list of decimal digit characters, most significant first. -/
def digitsVal (cs : List Char) : ℕ := cs.foldl (fun acc c => 10 * acc + digitVal c) 0

/-- Drops leading and trailing spaces, the whitespace JSON tolerates around
tokens (the repository stores no other whitespace in embedding texts). -/
def trimSpaces (cs : List Char) : List Char :=
  ((cs.dropWhile (fun c => c == ' ')).reverse.dropWhile (fun c => c == ' ')).reverse

/-- JavaScript string comparison (`<` on strings): lexicographic comparison of
the character sequences by code point, embedded structurally on `List Char`. -/
def charListLt (a b : List Char) : Bool :=
  match a, b with
  | [], [] => false
  | [], _ :: _ => true
  | _ :: _, [] => false
  | x :: xs, y :: ys => if x < y then true else if y < x then false else charListLt xs ys

/-- JavaScript `a > b` on strings. -/
def jsStrGt (a b : String) : Bool := charListLt b.data a.data

/-- Parses an unsigned decimal literal: digits, optionally followed by a dot
and more digits.  Yields the exact rational value. -/
def parseUnsignedDec (cs : List Char) : Option ℚ :=
  let ip := cs.takeWhile Char.isDigit
  let rest := cs.dropWhile Char.isDigit
  if ip.isEmpty then none
  else
    match rest with
    | [] => some (mkRat (digitsVal ip) 1)
    | '.' :: fp =>
      if fp.isEmpty || !(fp.all Char.isDigit) then none
      else some (mkRat (digitsVal (ip ++ fp)) (10 ^ fp.length))
    | _ => none

/-- Parses a decimal literal with an optional leading minus sign. -/
def parseDec (cs : List Char) : Option ℚ :=
  match cs with
  | '-' :: rest => (parseUnsignedDec rest).map (fun q => -q)
  | _ => parseUnsignedDec cs

/-- Splits a character list at top-level commas (array elements in the stored
embedding texts are flat numeric literals, so no nesting arises). -/
def splitComma (cs : List Char) (acc : List Char) : List (List Char) :=
  match cs with
  | [] => [acc.reverse]
  | c :: rest => if c == ',' then acc.reverse :: splitComma rest [] else splitComma rest (c :: acc)

/-- Models `JSON.parse` on a stored embedding text followed by the source's
`Array.isArray(parsed) ? parsed.map(Number) : null`: a text of the shape
`[q1,...,qn]` with decimal numeric elements yields the list of their values;
every other text — quoted strings such as the seeded
`JSON.stringify("sample_embedding_1")`, the fake `embedding_<id>_<ts>`
enrollment strings, and anything else that is not a JSON array — yields
`none`, matching the two source paths (non-array parse result, parse
exception) that both return `null`. -/
def parseRatList (s : String) : Option (List ℚ) :=
  match trimSpaces s.data with
  | '[' :: rest =>
    match rest.reverse with
    | ']' :: revInner =>
      let inner := trimSpaces revInner.reverse
      if inner.isEmpty then some []
      else (splitComma inner []).mapM (fun piece => parseDec (trimSpaces piece))
    | _ => none
  | _ => none

/-- Source: `parseEmbedding` in src/server/storage.ts.  A falsy value (null or
empty string) yields `null`; otherwise the text is parsed as JSON and kept
only when it is an array. -/
def parseEmbedding (value : Option String) : Option (List ℚ) :=
  if isFalsyStr value then none
  else
    match value with
    | none => none
    | some s => parseRatList s

/-- Source: `euclideanDistance` in src/server/storage.ts.  Returns
`Number.POSITIVE_INFINITY` on a length mismatch, otherwise the square root of
the sum of squared coordinate differences.  Embedded as the squared distance
(`⊤` for infinity); the square root is strictly monotone on nonnegatives, so
every comparison the source performs on distances corresponds exactly to the
same comparison on these squares. -/
def euclideanDistanceSq (a b : List ℚ) : WithTop ℚ :=
  if a.length ≠ b.length then ⊤
  else (((a.zipWith (fun x y => (x - y) * (x - y)) b).foldl (· + ·) 0 : ℚ) : WithTop ℚ)

/-- Source: the constant `THRESHOLD = 0.6` in `getEmployeeByEmbedding`,
stored squared (`0.36`) to match the squared-distance embedding. -/
def THRESHOLD_SQ : ℚ := mkRat 36 100

/-- One iteration of the candidate loop in `getEmployeeByEmbedding`:
skip candidates whose stored embedding does not parse, otherwise keep the
candidate when its distance is within threshold and strictly below the best
so far (`dist <= THRESHOLD && (!best || dist < best.distance)`). -/
def considerCandidate (target : List ℚ) (best : Option (Employee × WithTop ℚ))
    (emp : Employee) : Option (Employee × WithTop ℚ) :=
  match parseEmbedding emp.faceEmbedding with
  | none => best
  | some emb =>
    let dist := euclideanDistanceSq target emb
    match best with
    | none => if dist ≤ (THRESHOLD_SQ : WithTop ℚ) then some (emp, dist) else none
    | some b =>
      if dist ≤ (THRESHOLD_SQ : WithTop ℚ) ∧ dist < b.2 then some (emp, dist) else some b

/-- Source: `getEmployeeByEmbedding` in src/server/storage.ts — parse the
probe (returning `undefined` when it does not parse), then a linear scan over
all employee rows keeping the closest candidate within threshold. -/
def getEmployeeByEmbedding (embedding : String) (candidates : List Employee) :
    Option Employee :=
  match parseEmbedding (some embedding) with
  | none => none
  | some target => (candidates.foldl (considerCandidate target) none).map Prod.fst

/-- Source: `getEmployee` in src/server/storage.ts — select by primary key. -/
def getEmployee (emps : List Employee) (id : String) : Option Employee :=
  emps.find? (fun e => e.id == id)

/-- Source: `getAttendanceByEmployee` in src/server/storage.ts — the first row
whose employee id and date both match. -/
def getAttendanceByEmployee (records : List AttendanceRecord)
    (employeeId date : String) : Option AttendanceRecord :=
  records.find? (fun r => r.employeeId == employeeId && r.date == date)

/-- Source: `createAttendance` in src/server/storage.ts — unconditional insert
of a new row under a freshly generated id, returning the inserted row. -/
def createAttendance (records : List AttendanceRecord) (ins : InsertAttendance)
    (newId : String) : List AttendanceRecord × AttendanceRecord :=
  let row : AttendanceRecord :=
    { id := newId, employeeId := ins.employeeId, date := ins.date,
      checkIn := ins.checkIn, checkOut := ins.checkOut, status := ins.status,
      confidence := ins.confidence }
  (records ++ [row], row)

/-- Source: `updateAttendance` in src/server/storage.ts applied to the patch
`{ checkOut: currentTime }` used by the recognition flow — sets exactly the
`checkOut` column of every row with the given id and leaves every other
column and row unchanged. -/
def updateAttendanceCheckOut (records : List AttendanceRecord) (id t : String) :
    List AttendanceRecord :=
  records.map (fun r => if r.id == id then { r with checkOut := some t } else r)

/-- Source: the post-update re-select `db.select() ... where(eq(id))` in
`updateAttendance`. -/
def findAttendanceById (records : List AttendanceRecord) (id : String) :
    Option AttendanceRecord :=
  records.find? (fun r => r.id == id)

/-- Outcome of the attendance portion of POST /api/face/recognize: the JSON
response distinguishes a recorded check-in, a recorded check-out, and the
`ya registro entrada y salida hoy` rejection. -/
inductive ScanOutcome where
  | checkInRecorded (row : AttendanceRecord)
  | checkOutRecorded (row : Option AttendanceRecord)
  | alreadyComplete (firstName : String)
deriving Repr, DecidableEq

/-- Source: the attendance state machine inside POST /api/face/recognize
(src routes, lines 263-299).  No row for (employee, today): insert one with
`checkIn = currentTime` and status `late` exactly when
`currentTime > "09:00"` (JavaScript lexicographic string comparison against
the hardcoded cutoff).  A row whose checkOut is unset (falsy): set checkOut.
Otherwise: reject without touching the store. -/
def recordScan (records : List AttendanceRecord) (emp : Employee)
    (today currentTime : String) (confidence : ℚ) (newId : String) :
    List AttendanceRecord × ScanOutcome :=
  match getAttendanceByEmployee records emp.id today with
  | none =>
    let isLate := jsStrGt currentTime "09:00"
    let row : AttendanceRecord :=
      { id := newId, employeeId := emp.id, date := today,
        checkIn := some currentTime, checkOut := none,
        status := if isLate then "late" else "present",
        confidence := some confidence }
    (records ++ [row], ScanOutcome.checkInRecorded row)
  | some existing =>
    if isFalsyStr existing.checkOut then
      let updated := updateAttendanceCheckOut records existing.id currentTime
      (updated, ScanOutcome.checkOutRecorded (findAttendanceById updated existing.id))
    else
      (records, ScanOutcome.alreadyComplete emp.firstName)

/-- Source: the POST /api/attendance handler — validates that the employee
exists (404 otherwise, embedded as `none`) and then inserts unconditionally:
no lookup of an existing row for the same employee and date precedes the
insert. -/
def postAttendance (emps : List Employee) (records : List AttendanceRecord)
    (ins : InsertAttendance) (newId : String) :
    Option (List AttendanceRecord × AttendanceRecord) :=
  match getEmployee emps ins.employeeId with
  | none => none
  | some _ => some (createAttendance records ins newId)

/-- Source: `employees.filter(e => e.faceEmbedding)` in POST
/api/face/recognize (JavaScript truthiness on the nullable text column). -/
def employeesWithEmbedding (emps : List Employee) : List Employee :=
  emps.filter (fun e => !(isFalsyStr e.faceEmbedding))

/-- Source: `matchedEmployee = employeesWithEmbedding[randomIndex]` in POST
/api/face/recognize — the random pick that replaces any biometric matching;
the `Math.floor(Math.random() * n)` draw is the `randomIndex` argument. -/
def recognizeMatch (emps : List Employee) (randomIndex : ℕ) : Option Employee :=
  (employeesWithEmbedding emps)[randomIndex]?

/-- Source: `confidence = 0.85 + Math.random() * 0.14` in POST
/api/face/recognize — the reported confidence is an affine function of the
`Math.random()` draw `r` alone; no distance is computed anywhere on this
path. -/
def recognizeConfidence (r : ℚ) : ℚ := mkRat 85 100 + r * mkRat 14 100

/-- The dashboard statistics record (src/shared/schema.ts). -/
structure DashboardStats where
  presentToday : ℤ
  lateArrivals : ℤ
  absences : ℤ
  onTimePercentage : ℤ
deriving Repr, DecidableEq

/-- Source: `getDashboardStats` in src/server/storage.ts.  Absences are
computed as the employee count minus the number of rows for the date whose
status is `present` or `late`; no absent row is consulted.  The percentage
mirrors `Math.round((onTimeCount / presentToday) * 100)` over exact
rationals. -/
def getDashboardStats (emps : List Employee) (records : List AttendanceRecord)
    (date : String) : DashboardStats :=
  let totalEmployees : ℤ := emps.length
  let todayRecords := records.filter (fun r => r.date == date)
  let presentToday : ℤ :=
    (todayRecords.filter (fun r => r.status == "present" || r.status == "late")).length
  let lateArrivals : ℤ := (todayRecords.filter (fun r => r.status == "late")).length
  let absences := totalEmployees - presentToday
  let onTimeCount : ℤ := (todayRecords.filter (fun r => r.status == "present")).length
  let onTimePercentage : ℤ :=
    if 0 < presentToday then round (((onTimeCount : ℚ) / (presentToday : ℚ)) * 100) else 0
  { presentToday := presentToday, lateArrivals := lateArrivals,
    absences := absences, onTimePercentage := onTimePercentage }

/-- One entry of the per-date map built by `getWeeklyStats`. -/
structure DayStats where
  present : ℤ
  late : ℤ
  absent : ℤ
deriving Repr, DecidableEq

/-- Source: the per-date accumulation of `getWeeklyStats` in
src/server/storage.ts.  The map entry for `date` starts at
`(present, late, absent) = (0, 0, totalEmployees)` and each row carrying this
date increments present or late and decrements absent according to its
status; rows with any other status (such as the seeded `absent` row) leave
the entry unchanged.  The iteration producing the map keys from the date
range is not embedded; this is the entry for one key. -/
def weeklyStatsForDate (emps : List Employee) (records : List AttendanceRecord)
    (date : String) : DayStats :=
  let totalEmployees : ℤ := emps.length
  records.foldl
    (fun stats r =>
      if r.date == date then
        if r.status == "present" then
          { stats with present := stats.present + 1, absent := stats.absent - 1 }
        else if r.status == "late" then
          { stats with late := stats.late + 1, absent := stats.absent - 1 }
        else stats
      else stats)
    { present := 0, late := 0, absent := totalEmployees }

/-- The derived absence count in the words of the spec: enrolled employees
having no attendance row for the date. -/
def absentDerived (emps : List Employee) (records : List AttendanceRecord)
    (date : String) : ℤ :=
  (emps.filter (fun e =>
    !(records.any (fun r => r.employeeId == e.id && r.date == date)))).length

/-- The uniqueness invariant of the data model: at most one attendance row
per (employee id, calendar date). -/
def UniquePerDay (records : List AttendanceRecord) : Prop :=
  records.Pairwise (fun a b => ¬ (a.employeeId = b.employeeId ∧ a.date = b.date))

/-- Loop invariant of the candidate scan in `getEmployeeByEmbedding`, over the
employees processed so far: an empty accumulator means no processed candidate
parsed within threshold; a filled accumulator holds a processed candidate,
its parsed distance, the threshold bound, and minimality among all processed
parsed candidates. -/
def matchInv (target : List ℚ) (l : List Employee) :
    Option (Employee × WithTop ℚ) → Prop
  | none => ∀ e ∈ l, ∀ emb, parseEmbedding e.faceEmbedding = some emb →
      ¬ (euclideanDistanceSq target emb ≤ (THRESHOLD_SQ : WithTop ℚ))
  | some p => p.1 ∈ l ∧
      (∃ emb, parseEmbedding p.1.faceEmbedding = some emb ∧
        euclideanDistanceSq target emb = p.2) ∧
      p.2 ≤ (THRESHOLD_SQ : WithTop ℚ) ∧
      ∀ e ∈ l, ∀ emb, parseEmbedding e.faceEmbedding = some emb →
        p.2 ≤ euclideanDistanceSq target emb

/-- Fixture: an enrolled employee whose stored template is `[0.3,0.4]`
(squared distance `0.25` from the origin probe). -/
def empA : Employee :=
  { id := "e-ana", firstName := "Ana", lastName := "Diaz", email := "ana@x.com",
    department := "Ventas", position := "Exec", photoUrl := none,
    faceEmbedding := some "[0.3,0.4]", status := "active" }

/-- Fixture: an enrolled employee whose stored template is `[0.4,0.3]`,
equidistant from the origin probe with `empA`. -/
def empB : Employee :=
  { id := "e-ben", firstName := "Ben", lastName := "Cruz", email := "ben@x.com",
    department := "TI", position := "Dev", photoUrl := none,
    faceEmbedding := some "[0.4,0.3]", status := "active" }

/-- Fixture: template `[0,0]` (the spec scenario enrolled set). -/
def empZero : Employee :=
  { id := "e-zero", firstName := "Zoe", lastName := "Luna", email := "zoe@x.com",
    department := "RH", position := "Mgr", photoUrl := none,
    faceEmbedding := some "[0,0]", status := "active" }

/-- Fixture: template `[10,10]` (the spec scenario enrolled set). -/
def empTen : Employee :=
  { id := "e-ten", firstName := "Tom", lastName := "Vega", email := "tom@x.com",
    department := "MK", position := "Lead", photoUrl := none,
    faceEmbedding := some "[10,10]", status := "active" }

/-- Fixture: a minimal employee row with a given id and no template. -/
def mkEmp (i : String) : Employee :=
  { id := i, firstName := i, lastName := i, email := i, department := "D",
    position := "P", photoUrl := none, faceEmbedding := none, status := "active" }

/-- Fixture: the calendar date used by concrete attendance scenarios. -/
def day1 : String := "2026-01-05"

/-- Fixture: an attendance row for `day1` with a given id, employee and
status, checked in at 08:30 and not yet checked out. -/
def mkRow (rid eid st : String) : AttendanceRecord :=
  { id := rid, employeeId := eid, date := day1, checkIn := some "08:30",
    checkOut := none, status := st, confidence := none }

def emp1 : Employee := mkEmp "e1"

def row1 : AttendanceRecord := mkRow "a1" "e1" "present"

/-- Fixture: a finalized row — both check-in and check-out set. -/
def rowComplete : AttendanceRecord :=
  { id := "a9", employeeId := "e1", date := day1, checkIn := some "08:30",
    checkOut := some "17:30", status := "present", confidence := none }

/-- Fixture: an attendance-creation payload duplicating the (employee, date)
pair of `row1`. -/
def insDup : InsertAttendance :=
  { employeeId := "e1", date := day1, checkIn := some "08:40", checkOut := none,
    status := "present", confidence := none }

/-- Fixture: the row `postAttendance` inserts for `insDup` under id `a2`. -/
def row2 : AttendanceRecord :=
  { id := "a2", employeeId := "e1", date := day1, checkIn := some "08:40",
    checkOut := none, status := "present", confidence := none }

/-- Fixture: five enrolled employees, for the absence-derivation scenarios. -/
def emps5 : List Employee :=
  [mkEmp "e1", mkEmp "e2", mkEmp "e3", mkEmp "e4", mkEmp "e5"]

/-- Fixture: three rows for `day1` one of which carries the seeded status
`absent` — reachable state, since the seed writes such a row. -/
def rowsMixed : List AttendanceRecord :=
  [mkRow "a1" "e1" "present", mkRow "a2" "e2" "late", mkRow "a3" "e3" "absent"]

/-- Fixture: three rows for `day1` all with scan-flow statuses. -/
def rowsPL : List AttendanceRecord :=
  [mkRow "a1" "e1" "present", mkRow "a2" "e2" "present", mkRow "a3" "e3" "late"]

/-- Fixture: the seeded Maria Garcia row, whose stored embedding text is
`JSON.stringify("sample_embedding_1")` — a quoted string, not a JSON
array. -/
def empSample : Employee :=
  { id := "e-maria", firstName := "Maria", lastName := "Garcia",
    email := "maria.garcia@empresa.com", department := "Recursos Humanos",
    position := "Gerente de RH", photoUrl := none,
    faceEmbedding := some "\"sample_embedding_1\"", status := "active" }

theorem matchInv_step (target : List ℚ) (l : List Employee)
    (acc : Option (Employee × WithTop ℚ)) (e : Employee)
    (h : matchInv target l acc) :
    matchInv target (l ++ [e]) (considerCandidate target acc e) := by
  cases hp : parseEmbedding e.faceEmbedding with
  | none =>
    have hc : considerCandidate target acc e = acc := by
      simp [considerCandidate, hp]
    rw [hc]
    cases acc with
    | none =>
      intro e' he' emb hemb
      rcases List.mem_append.mp he' with h1 | h1
      · exact h e' h1 emb hemb
      · have he : e' = e := by simpa using h1
        subst he; rw [hp] at hemb; cases hemb
    | some p =>
      obtain ⟨hmem, hex, hle, hmin⟩ := h
      refine ⟨List.mem_append.mpr (Or.inl hmem), hex, hle, ?_⟩
      intro e' he' emb hemb
      rcases List.mem_append.mp he' with h1 | h1
      · exact hmin e' h1 emb hemb
      · have he : e' = e := by simpa using h1
        subst he; rw [hp] at hemb; cases hemb
  | some emb =>
    cases acc with
    | none =>
      by_cases hle : euclideanDistanceSq target emb ≤ (THRESHOLD_SQ : WithTop ℚ)
      · have hc : considerCandidate target none e
            = some (e, euclideanDistanceSq target emb) := by
          simp [considerCandidate, hp, hle]
        rw [hc]
        refine ⟨List.mem_append.mpr (Or.inr (by simp)), ⟨emb, hp, rfl⟩, hle, ?_⟩
        intro e' he' emb' hemb'
        rcases List.mem_append.mp he' with h1 | h1
        · exact le_trans hle (le_of_lt (lt_of_not_le (h e' h1 emb' hemb')))
        · have he : e' = e := by simpa using h1
          subst he; rw [hp] at hemb'
          injection hemb' with hh; subst hh; exact le_refl _
      · have hc : considerCandidate target none e = none := by
          simp [considerCandidate, hp, hle]
        rw [hc]
        intro e' he' emb' hemb'
        rcases List.mem_append.mp he' with h1 | h1
        · exact h e' h1 emb' hemb'
        · have he : e' = e := by simpa using h1
          subst he; rw [hp] at hemb'
          injection hemb' with hh; subst hh; exact hle
    | some p =>
      obtain ⟨hmem, ⟨embb, hpb, hdb⟩, hleb, hminb⟩ := h
      by_cases hcond : euclideanDistanceSq target emb ≤ (THRESHOLD_SQ : WithTop ℚ)
          ∧ euclideanDistanceSq target emb < p.2
      · have hc : considerCandidate target (some p) e
            = some (e, euclideanDistanceSq target emb) := by
          simp [considerCandidate, hp, hcond.1, hcond.2]
        rw [hc]
        refine ⟨List.mem_append.mpr (Or.inr (by simp)), ⟨emb, hp, rfl⟩, hcond.1, ?_⟩
        intro e' he' emb' hemb'
        rcases List.mem_append.mp he' with h1 | h1
        · exact le_trans (le_of_lt hcond.2) (hminb e' h1 emb' hemb')
        · have he : e' = e := by simpa using h1
          subst he; rw [hp] at hemb'
          injection hemb' with hh; subst hh; exact le_refl _
      · have hc : considerCandidate target (some p) e = some p := by
          simp only [considerCandidate, hp]
          rw [if_neg hcond]
        rw [hc]
        refine ⟨List.mem_append.mpr (Or.inl hmem), ⟨embb, hpb, hdb⟩, hleb, ?_⟩
        intro e' he' emb' hemb'
        rcases List.mem_append.mp he' with h1 | h1
        · exact hminb e' h1 emb' hemb'
        · have he : e' = e := by simpa using h1
          subst he; rw [hp] at hemb'
          injection hemb' with hh; subst hh
          rcases not_and_or.mp hcond with hc1 | hc1
          · exact le_trans hleb (le_of_lt (lt_of_not_le hc1))
          · exact le_of_not_lt hc1

theorem matchInv_foldl (target : List ℚ) (l : List Employee) :
    ∀ (pre : List Employee) (acc : Option (Employee × WithTop ℚ)),
      matchInv target pre acc →
      matchInv target (pre ++ l) (l.foldl (considerCandidate target) acc) := by
  induction l with
  | nil => intro pre acc h; simpa using h
  | cons e rest ih =>
    intro pre acc h
    have h1 := matchInv_step target pre acc e h
    have h2 := ih (pre ++ [e]) (considerCandidate target acc e) h1
    simpa [List.append_assoc] using h2

/-- C1: whenever `getEmployeeByEmbedding` returns an employee, the probe
parses, the returned employee has a parsed template whose (squared Euclidean)
distance to the probe is within the (squared) threshold and minimal among
the parsed templates of all candidates — mismatched dimensionality having
infinite distance, this is minimality among templates of matching
dimensionality — and no candidate whose template lies strictly beyond the
threshold is ever the returned employee. -/
theorem getEmployeeByEmbedding_min_distance (probe : String)
    (candidates : List Employee) (emp : Employee)
    (h : getEmployeeByEmbedding probe candidates = some emp) :
    ∃ target d, parseEmbedding (some probe) = some target ∧
      (∃ emb, parseEmbedding emp.faceEmbedding = some emb ∧
        euclideanDistanceSq target emb = d) ∧
      d ≤ (THRESHOLD_SQ : WithTop ℚ) ∧
      (∀ e ∈ candidates, ∀ emb, parseEmbedding e.faceEmbedding = some emb →
        d ≤ euclideanDistanceSq target emb) ∧
      (∀ e ∈ candidates, ∀ emb, parseEmbedding e.faceEmbedding = some emb →
        (THRESHOLD_SQ : WithTop ℚ) < euclideanDistanceSq target emb → emp ≠ e) := by
  unfold getEmployeeByEmbedding at h
  cases hparse : parseEmbedding (some probe) with
  | none => rw [hparse] at h; cases h
  | some target =>
    rw [hparse] at h
    have h2 : (candidates.foldl (considerCandidate target) none).map Prod.fst
        = some emp := h
    cases hfold : candidates.foldl (considerCandidate target) none with
    | none => rw [hfold] at h2; cases h2
    | some p =>
      rw [hfold] at h2
      have hbase : matchInv target [] none := by
        intro e he emb hemb; exact absurd he (List.not_mem_nil e)
      have hinv := matchInv_foldl target candidates [] none hbase
      rw [hfold] at hinv
      rw [List.nil_append] at hinv
      obtain ⟨hmem, ⟨emb, hpe, hde⟩, hle, hmin⟩ := hinv
      have hemp : p.1 = emp := by simpa using h2
      subst hemp
      refine ⟨target, p.2, rfl, ⟨emb, hpe, hde⟩, hle, ?_, ?_⟩
      · intro e he emb' hemb'; exact hmin e he emb' hemb'
      · intro e he emb' hemb' hgt heq
        rw [← heq] at hemb'
        rw [hpe] at hemb'
        injection hemb' with hh
        rw [← hh] at hgt
        rw [hde] at hgt
        exact absurd hle (not_le_of_lt hgt)

theorem getEmployeeByEmbedding_min_distance_witness :
    ∃ target d, parseEmbedding (some "[0,0]") = some target ∧
      (∃ emb, parseEmbedding empA.faceEmbedding = some emb ∧
        euclideanDistanceSq target emb = d) ∧
      d ≤ (THRESHOLD_SQ : WithTop ℚ) ∧
      (∀ e ∈ [empA], ∀ emb, parseEmbedding e.faceEmbedding = some emb →
        d ≤ euclideanDistanceSq target emb) ∧
      (∀ e ∈ [empA], ∀ emb, parseEmbedding e.faceEmbedding = some emb →
        (THRESHOLD_SQ : WithTop ℚ) < euclideanDistanceSq target emb → empA ≠ e) :=
  getEmployeeByEmbedding_min_distance "[0,0]" [empA] empA
    (by with_unfolding_all decide)

/-- C4 (the code lacks the tie-break the spec mandates): `empA` and `empB`
are distinct employees whose templates are at exactly the same squared
distance `0.25` from the probe `[0,0]`, both within threshold, yet
`getEmployeeByEmbedding` returns the first candidate instead of rejecting
the ambiguous match. -/
theorem getEmployeeByEmbedding_no_ambiguity_rejection :
    parseEmbedding empA.faceEmbedding = some [mkRat 3 10, mkRat 4 10] ∧
    parseEmbedding empB.faceEmbedding = some [mkRat 4 10, mkRat 3 10] ∧
    euclideanDistanceSq [0, 0] [mkRat 3 10, mkRat 4 10]
      = euclideanDistanceSq [0, 0] [mkRat 4 10, mkRat 3 10] ∧
    euclideanDistanceSq [0, 0] [mkRat 3 10, mkRat 4 10] ≤ (THRESHOLD_SQ : WithTop ℚ) ∧
    empA ≠ empB ∧
    getEmployeeByEmbedding "[0,0]" [empA, empB] = some empA := by
  with_unfolding_all decide

/-- C8 (the code returns bare `undefined`, not tagged rejection reasons):
with an empty enrolled set the matcher returns `none`, and with the spec
scenario set (templates `[0,0]` and `[10,10]`, probe `[5,5]`, nearest
distance beyond threshold) it returns the very same `none` — the result type
carries no `no_face_detected` / `not_recognized` distinction, and both
rejections are values, not exceptions. -/
theorem getEmployeeByEmbedding_rejections_are_none :
    (∀ probe : String, getEmployeeByEmbedding probe [] = none) ∧
    getEmployeeByEmbedding "[5,5]" [empZero, empTen] = none := by
  constructor
  · intro probe
    unfold getEmployeeByEmbedding
    cases hparse : parseEmbedding (some probe) <;> simp [hparse]
  · with_unfolding_all decide

/-- C9: on embedding vectors of unequal length the distance computation is
total and yields positive infinity, which no finite threshold ever admits. -/
theorem euclideanDistanceSq_length_mismatch (a b : List ℚ)
    (h : a.length ≠ b.length) :
    euclideanDistanceSq a b = ⊤ ∧
      ∀ t : ℚ, ¬ (euclideanDistanceSq a b ≤ (t : WithTop ℚ)) := by
  have he : euclideanDistanceSq a b = ⊤ := by simp [euclideanDistanceSq, h]
  refine ⟨he, ?_⟩
  intro t hle
  rw [he, top_le_iff] at hle
  exact WithTop.coe_ne_top hle

theorem euclideanDistanceSq_length_mismatch_witness :
    [(0 : ℚ)].length ≠ ([] : List ℚ).length ∧
    (euclideanDistanceSq [0] [] = ⊤ ∧
      ∀ t : ℚ, ¬ (euclideanDistanceSq [0] [] ≤ (t : WithTop ℚ))) :=
  ⟨by decide, euclideanDistanceSq_length_mismatch [0] [] (by decide)⟩

/-- C5 counterexample: starting from a store satisfying the one-row-per-
(employee, date) invariant, the direct attendance-creation endpoint happily
inserts a second row for the same employee and date — it checks only that
the employee exists, never whether a row for that date already does. -/
theorem postAttendance_violates_unique_per_day :
    UniquePerDay [row1] ∧
    postAttendance [emp1] [row1] insDup "a2" = some ([row1, row2], row2) ∧
    ¬ UniquePerDay [row1, row2] := by
  refine ⟨List.pairwise_singleton _ _, by with_unfolding_all decide, ?_⟩
  intro hu
  have hrel := (List.pairwise_cons.mp hu).1 row2 (by simp)
  exact hrel ⟨by decide, by decide⟩

/-- C5 (amended): the recognition flow preserves the invariant — it creates
a row only after looking up the (employee, today) pair and finding none, the
check-out transition rewrites rows in place without changing employee or
date, and the already-complete rejection writes nothing.  (The direct
attendance-creation endpoint does not perform this check; see the
counterexample.) -/
theorem recordScan_preserves_unique_per_day (records : List AttendanceRecord)
    (emp : Employee) (today t : String) (conf : ℚ) (newId : String)
    (h : UniquePerDay records) :
    UniquePerDay (recordScan records emp today t conf newId).1 := by
  cases hex : getAttendanceByEmployee records emp.id today with
  | none =>
    have hex2 := hex
    unfold getAttendanceByEmployee at hex2
    have hnone := List.find?_eq_none.mp hex2
    have hfst : (recordScan records emp today t conf newId).1
        = records ++ [⟨newId, emp.id, today, some t, none,
            (if jsStrGt t "09:00" then "late" else "present"), some conf⟩] := by
      simp only [recordScan, hex]
    rw [hfst]
    unfold UniquePerDay at h ⊢
    rw [List.pairwise_append]
    refine ⟨h, List.pairwise_singleton _ _, ?_⟩
    intro a ha b hb
    have hb2 := List.mem_singleton.mp hb
    subst hb2
    intro hcon
    apply hnone a ha
    simp only [Bool.and_eq_true, beq_iff_eq]
    exact ⟨hcon.1, hcon.2⟩
  | some ex =>
    by_cases hf : isFalsyStr ex.checkOut = true
    · have hfst : (recordScan records emp today t conf newId).1
          = updateAttendanceCheckOut records ex.id t := by
        simp [recordScan, hex, hf]
      rw [hfst]
      unfold UniquePerDay at h ⊢
      unfold updateAttendanceCheckOut
      have hemp : ∀ r : AttendanceRecord,
          (if r.id == ex.id then { r with checkOut := some t } else r).employeeId
            = r.employeeId := by
        intro r
        by_cases hc : (r.id == ex.id) = true
        · rw [if_pos hc]
        · rw [if_neg hc]
      have hdate : ∀ r : AttendanceRecord,
          (if r.id == ex.id then { r with checkOut := some t } else r).date
            = r.date := by
        intro r
        by_cases hc : (r.id == ex.id) = true
        · rw [if_pos hc]
        · rw [if_neg hc]
      refine List.Pairwise.map _ ?_ h
      intro a b hR hcon
      refine hR ⟨?_, ?_⟩
      · rw [← hemp a, ← hemp b]
        exact hcon.1
      · rw [← hdate a, ← hdate b]
        exact hcon.2
    · have hfst : (recordScan records emp today t conf newId).1 = records := by
        simp [recordScan, hex, hf]
      rw [hfst]
      exact h

theorem recordScan_preserves_unique_per_day_witness :
    UniquePerDay [row1] ∧
    UniquePerDay (recordScan [row1] emp1 day1 "17:00" 0 "b5").1 :=
  ⟨List.pairwise_singleton _ _,
    recordScan_preserves_unique_per_day [row1] emp1 day1 "17:00" 0 "b5"
      (List.pairwise_singleton _ _)⟩

/-- C3 (the code computes no distance-based confidence): the recognition
endpoint reports `0.85 + r * 0.14` for the random draw `r` alone; for every
draw in `[0,1)` the reported confidence lies in `[0.85, 0.99)` and in
particular is never the exact `1.0` the claim requires for a probe identical
to an enrolled template. -/
theorem recognizeConfidence_random_never_one (r : ℚ) (h0 : 0 ≤ r) (h1 : r < 1) :
    mkRat 85 100 ≤ recognizeConfidence r ∧
    recognizeConfidence r < mkRat 99 100 ∧
    recognizeConfidence r ≠ 1 := by
  unfold recognizeConfidence
  rw [Rat.mkRat_eq_div, Rat.mkRat_eq_div, Rat.mkRat_eq_div]
  push_cast
  refine ⟨by nlinarith, by nlinarith, ?_⟩
  intro hcontra
  nlinarith [hcontra]

theorem findAttendanceById_updateCheckOut (records : List AttendanceRecord)
    (id t : String) (r : AttendanceRecord)
    (h : findAttendanceById (updateAttendanceCheckOut records id t) id = some r) :
    r.checkOut = some t ∧ r.id = id := by
  unfold findAttendanceById at h
  have hp := List.find?_some h
  have hid : r.id = id := by simpa using hp
  have hpb : (r.id == id) = true := by simpa using hid
  have hmem : r ∈ updateAttendanceCheckOut records id t := List.mem_of_find?_eq_some h
  unfold updateAttendanceCheckOut at hmem
  rcases List.mem_map.mp hmem with ⟨r0, hr0, heq⟩
  by_cases hc : (r0.id == id) = true
  · rw [if_pos hc] at heq
    exact ⟨by rw [← heq], hid⟩
  · rw [if_neg hc] at heq
    rw [← heq] at hpb
    exact absurd hpb hc

theorem findAttendanceById_updateCheckOut_isSome (records : List AttendanceRecord)
    (t : String) (ex : AttendanceRecord) (hmem : ex ∈ records) :
    ∃ r, findAttendanceById (updateAttendanceCheckOut records ex.id t) ex.id = some r := by
  have hex : ∃ x, x ∈ updateAttendanceCheckOut records ex.id t ∧ (x.id == ex.id) = true := by
    refine ⟨if ex.id == ex.id then { ex with checkOut := some t } else ex, ?_, ?_⟩
    · exact List.mem_map_of_mem _ hmem
    · rw [if_pos (by simp)]
      simp
  have hsome : (findAttendanceById (updateAttendanceCheckOut records ex.id t) ex.id).isSome := by
    unfold findAttendanceById
    exact List.find?_isSome.mpr hex
  exact Option.isSome_iff_exists.mp hsome

/-- C2: the per-(employee, date) state machine of the recognition flow.
On the first scan of the day a row is created carrying the scan time as
check-in and status `late` exactly when the scan time is after the `09:00`
cutoff (JavaScript string comparison), `present` otherwise, and the outcome
is a check-in.  On a second scan with check-out unset, check-out is set to
the scan time and the outcome is a check-out. -/
theorem recordScan_state_machine (records : List AttendanceRecord) (emp : Employee)
    (today t : String) (conf : ℚ) (newId : String) :
    (getAttendanceByEmployee records emp.id today = none →
      ∃ created, recordScan records emp today t conf newId
          = (records ++ [created], ScanOutcome.checkInRecorded created) ∧
        created.checkIn = some t ∧ created.checkOut = none ∧
        created.employeeId = emp.id ∧ created.date = today ∧
        created.confidence = some conf ∧
        (created.status = "late" ↔ jsStrGt t "09:00" = true) ∧
        (created.status = "present" ↔ jsStrGt t "09:00" = false)) ∧
    (∀ ex, getAttendanceByEmployee records emp.id today = some ex →
      ex.checkOut = none →
      ∃ updatedRow, recordScan records emp today t conf newId
          = (updateAttendanceCheckOut records ex.id t,
            ScanOutcome.checkOutRecorded (some updatedRow)) ∧
        updatedRow.checkOut = some t ∧ updatedRow.id = ex.id) := by
  constructor
  · intro h
    refine ⟨⟨newId, emp.id, today, some t, none,
        (if jsStrGt t "09:00" then "late" else "present"), some conf⟩,
      ?_, rfl, rfl, rfl, rfl, rfl, ?_, ?_⟩
    · unfold recordScan
      rw [h]
    · cases hl : jsStrGt t "09:00" <;> simp [hl]
    · cases hl : jsStrGt t "09:00" <;> simp [hl]
  · intro ex hex hco
    have hexmem : ex ∈ records := List.mem_of_find?_eq_some hex
    have hfalsy : isFalsyStr ex.checkOut = true := by rw [hco]; rfl
    obtain ⟨r, hr⟩ := findAttendanceById_updateCheckOut_isSome records t ex hexmem
    obtain ⟨hrco, hrid⟩ := findAttendanceById_updateCheckOut records ex.id t r hr
    refine ⟨r, ?_, hrco, hrid⟩
    simp only [recordScan, hex, hfalsy, if_true, hr]

theorem recordScan_state_machine_witness :
    (∃ created, recordScan [] emp1 day1 "09:30" 0 "b1"
        = ([] ++ [created], ScanOutcome.checkInRecorded created) ∧
      created.checkIn = some "09:30" ∧ created.checkOut = none ∧
      created.employeeId = emp1.id ∧ created.date = day1 ∧
      created.confidence = some 0 ∧
      (created.status = "late" ↔ jsStrGt "09:30" "09:00" = true) ∧
      (created.status = "present" ↔ jsStrGt "09:30" "09:00" = false)) ∧
    (∃ updatedRow, recordScan [row1] emp1 day1 "17:00" 0 "b2"
        = (updateAttendanceCheckOut [row1] row1.id "17:00",
          ScanOutcome.checkOutRecorded (some updatedRow)) ∧
      updatedRow.checkOut = some "17:00" ∧ updatedRow.id = row1.id) :=
  ⟨(recordScan_state_machine [] emp1 day1 "09:30" 0 "b1").1 (by decide),
    (recordScan_state_machine [row1] emp1 day1 "17:00" 0 "b2").2 row1
      (by decide) (by decide)⟩

/-- C7: a scan in the Complete state (check-in and check-out both set)
returns the already-complete rejection and leaves the store entirely
unchanged; the check-out transition rewrites the store so that every row
keeps its id, employee, date, check-in, status and confidence, with only the
check-out column possibly set to the scan time. -/
theorem recordScan_complete_and_frame (records : List AttendanceRecord)
    (emp : Employee) (today t tin tout : String) (conf : ℚ) (newId : String) :
    (∀ ex, getAttendanceByEmployee records emp.id today = some ex →
      ex.checkIn = some tin → ex.checkOut = some tout → tout ≠ "" →
      recordScan records emp today t conf newId
        = (records, ScanOutcome.alreadyComplete emp.firstName)) ∧
    (∀ ex, getAttendanceByEmployee records emp.id today = some ex →
      ex.checkOut = none →
      (recordScan records emp today t conf newId).1
          = updateAttendanceCheckOut records ex.id t ∧
      ∀ r ∈ (recordScan records emp today t conf newId).1,
        ∃ r0 ∈ records, r.id = r0.id ∧ r.employeeId = r0.employeeId ∧
          r.date = r0.date ∧ r.checkIn = r0.checkIn ∧ r.status = r0.status ∧
          r.confidence = r0.confidence ∧
          (r.checkOut = r0.checkOut ∨ r.checkOut = some t)) := by
  constructor
  · intro ex hex _ hco hne
    have hfalsy : isFalsyStr ex.checkOut = false := by
      rw [hco]
      simpa [isFalsyStr] using hne
    simp [recordScan, hex, hfalsy]
  · intro ex hex hco
    have hfalsy : isFalsyStr ex.checkOut = true := by rw [hco]; rfl
    have hfst : (recordScan records emp today t conf newId).1
        = updateAttendanceCheckOut records ex.id t := by
      simp only [recordScan, hex, hfalsy, if_true]
    refine ⟨hfst, ?_⟩
    intro r hr
    rw [hfst] at hr
    unfold updateAttendanceCheckOut at hr
    rcases List.mem_map.mp hr with ⟨r0, hr0, heq⟩
    by_cases hc : (r0.id == ex.id) = true
    · rw [if_pos hc] at heq
      exact ⟨r0, hr0, by rw [← heq], by rw [← heq], by rw [← heq],
        by rw [← heq], by rw [← heq], by rw [← heq], Or.inr (by rw [← heq])⟩
    · rw [if_neg hc] at heq
      exact ⟨r0, hr0, by rw [← heq], by rw [← heq], by rw [← heq],
        by rw [← heq], by rw [← heq], by rw [← heq], Or.inl (by rw [← heq])⟩

theorem recordScan_complete_and_frame_witness :
    recordScan [rowComplete] emp1 day1 "18:00" 0 "b3"
        = ([rowComplete], ScanOutcome.alreadyComplete emp1.firstName) ∧
    ((recordScan [row1] emp1 day1 "17:00" 0 "b4").1
        = updateAttendanceCheckOut [row1] row1.id "17:00" ∧
      ∀ r ∈ (recordScan [row1] emp1 day1 "17:00" 0 "b4").1,
        ∃ r0 ∈ [row1], r.id = r0.id ∧ r.employeeId = r0.employeeId ∧
          r.date = r0.date ∧ r.checkIn = r0.checkIn ∧ r.status = r0.status ∧
          r.confidence = r0.confidence ∧
          (r.checkOut = r0.checkOut ∨ r.checkOut = some "17:00")) :=
  ⟨(recordScan_complete_and_frame [rowComplete] emp1 day1 "18:00" "08:30" "17:30" 0 "b3").1
      rowComplete (by decide) (by decide) (by decide) (by decide),
    (recordScan_complete_and_frame [row1] emp1 day1 "17:00" "08:30" "17:30" 0 "b4").2
      row1 (by decide) (by decide)⟩

theorem weeklyFold_absent (d : String) (records : List AttendanceRecord) :
    ∀ init : DayStats,
      (records.foldl
        (fun stats r =>
          if r.date == d then
            if r.status == "present" then
              { stats with present := stats.present + 1, absent := stats.absent - 1 }
            else if r.status == "late" then
              { stats with late := stats.late + 1, absent := stats.absent - 1 }
            else stats
          else stats) init).absent
      = init.absent
        - ((records.filter (fun r => r.date == d
            && (r.status == "present" || r.status == "late"))).length : ℤ) := by
  induction records with
  | nil => intro init; simp
  | cons r rest ih =>
    intro init
    simp only [List.foldl_cons, List.filter_cons]
    rw [ih]
    by_cases h1 : (r.date == d) = true
    · by_cases h2 : (r.status == "present") = true
      · simp only [h1, h2, Bool.true_and, Bool.true_or, if_true, List.length_cons]
        push_cast
        ring
      · by_cases h3 : (r.status == "late") = true
        · simp only [h1, h2, h3, Bool.true_and, Bool.false_or, Bool.or_true,
            if_true, if_false, List.length_cons]
          push_cast
          ring
        · simp [h1, h2, h3]
    · simp [h1]

theorem length_filter_mem_eq (L ids : List String) (hL : L.Nodup)
    (hids : ids.Nodup) (hsub : ∀ x ∈ ids, x ∈ L) :
    (L.filter (fun s => decide (s ∈ ids))).length = ids.length := by
  have hnd : (L.filter (fun s => decide (s ∈ ids))).Nodup := hL.filter _
  have hmem : ∀ x, x ∈ L.filter (fun s => decide (s ∈ ids)) ↔ x ∈ ids := by
    intro x
    rw [List.mem_filter]
    constructor
    · rintro ⟨_, hx⟩
      simpa using hx
    · intro hx
      exact ⟨hsub x hx, by simpa using hx⟩
  have hfin : (L.filter (fun s => decide (s ∈ ids))).toFinset = ids.toFinset := by
    ext x
    simp only [List.mem_toFinset]
    exact hmem x
  have h1 := List.toFinset_card_of_nodup hnd
  have h2 := List.toFinset_card_of_nodup hids
  rw [← h1, ← h2, hfin]

/-- C6 (amended): the scan flow never writes an `absent` row (its created
rows carry status `present` or `late`; see the C2 theorem), and the reports
charge `totalEmployees` minus the count of rows for the date whose status is
`present` or `late` as absences.  Whenever every row for the date carries a
scan-flow status, rows name distinct enrolled employees, and employee ids
are unique — in particular in every state the scan flow alone produces —
this equals the derived count "enrolled employees with no row for the date";
with rows of other statuses (the seeded `absent` row) or duplicate rows the
two quantities differ (see the counterexample). -/
theorem absence_derivation (emps : List Employee)
    (records : List AttendanceRecord) (d : String)
    (hstat : ∀ r ∈ records, r.date = d → (r.status = "present" ∨ r.status = "late"))
    (hrowsnodup : ((records.filter (fun r => r.date == d)).map
      (fun r => r.employeeId)).Nodup)
    (hrowemp : ∀ r ∈ records, r.date = d →
      r.employeeId ∈ emps.map (fun e => e.id))
    (hempnodup : (emps.map (fun e => e.id)).Nodup) :
    (getDashboardStats emps records d).absences = absentDerived emps records d ∧
    (weeklyStatsForDate emps records d).absent = absentDerived emps records d := by
  have hfull : (records.filter (fun r => r.date == d)).filter
      (fun r => r.status == "present" || r.status == "late")
      = records.filter (fun r => r.date == d) := by
    rw [List.filter_eq_self]
    intro r hr
    rcases List.mem_filter.mp hr with ⟨hrmem, hrd⟩
    rcases hstat r hrmem (by simpa using hrd) with h | h <;> simp [h]
  have hcomb : records.filter (fun r => r.date == d
      && (r.status == "present" || r.status == "late"))
      = records.filter (fun r => r.date == d) := by
    have hsw : records.filter (fun r => r.date == d
        && (r.status == "present" || r.status == "late"))
        = records.filter (fun r => (r.status == "present" || r.status == "late")
          && (r.date == d)) := by
      apply List.filter_congr
      intro a _
      rw [Bool.and_comm]
    rw [hsw, ← List.filter_filter, hfull]
  have hpt : ∀ e : Employee,
      (records.any (fun r => r.employeeId == e.id && r.date == d))
        = decide (e.id ∈ (records.filter (fun r => r.date == d)).map
            (fun r => r.employeeId)) := by
    intro e
    by_cases h : e.id ∈ (records.filter (fun r => r.date == d)).map
        (fun r => r.employeeId)
    · rw [decide_eq_true h]
      rcases List.mem_map.mp h with ⟨r, hr, hrid⟩
      rcases List.mem_filter.mp hr with ⟨hrmem, hrd⟩
      rw [List.any_eq_true]
      exact ⟨r, hrmem, by simp [hrid, hrd]⟩
    · rw [decide_eq_false h]
      rw [List.any_eq_false]
      intro r hrmem hpred
      apply h
      rcases Bool.and_eq_true_iff.mp hpred with ⟨hpe, hpd⟩
      refine List.mem_map.mpr ⟨r, List.mem_filter.mpr ⟨hrmem, hpd⟩, ?_⟩
      simpa using hpe
  have hcount : (emps.filter (fun e =>
      records.any (fun r => r.employeeId == e.id && r.date == d))).length
      = (records.filter (fun r => r.date == d)).length := by
    have hc1 : emps.filter (fun e =>
        records.any (fun r => r.employeeId == e.id && r.date == d))
        = emps.filter (fun e => decide (e.id ∈ (records.filter
            (fun r => r.date == d)).map (fun r => r.employeeId))) := by
      apply List.filter_congr
      intro e _
      exact hpt e
    rw [hc1]
    have hc2 : (emps.map (fun e => e.id)).filter (fun s => decide
        (s ∈ (records.filter (fun r => r.date == d)).map (fun r => r.employeeId)))
        = (emps.filter (fun e => decide (e.id ∈ (records.filter
            (fun r => r.date == d)).map (fun r => r.employeeId)))).map
          (fun e => e.id) := List.filter_map _ _
    have hc3 := congrArg List.length hc2
    rw [List.length_map] at hc3
    rw [← hc3]
    rw [length_filter_mem_eq (emps.map (fun e => e.id))
      ((records.filter (fun r => r.date == d)).map (fun r => r.employeeId))
      hempnodup hrowsnodup ?_]
    · rw [List.length_map]
    · intro x hx
      rcases List.mem_map.mp hx with ⟨r, hr, hrid⟩
      rcases List.mem_filter.mp hr with ⟨hrmem, hrd⟩
      rw [← hrid]
      exact hrowemp r hrmem (by simpa using hrd)
  have hsplit := List.length_eq_length_filter_add
    (fun e : Employee => records.any (fun r => r.employeeId == e.id && r.date == d))
    (l := emps)
  have habs : absentDerived emps records d
      = ((emps.filter (fun e => !(records.any
          (fun r => r.employeeId == e.id && r.date == d)))).length : ℤ) := rfl
  constructor
  · have hdash : (getDashboardStats emps records d).absences
        = (emps.length : ℤ) - (((records.filter (fun r => r.date == d)).filter
            (fun r => r.status == "present" || r.status == "late")).length : ℤ) := rfl
    rw [hdash, hfull, habs]
    rw [hcount] at hsplit
    omega
  · have hweek : (weeklyStatsForDate emps records d).absent
        = (emps.length : ℤ) - ((records.filter (fun r => r.date == d
            && (r.status == "present" || r.status == "late"))).length : ℤ) := by
      unfold weeklyStatsForDate
      rw [weeklyFold_absent]
    rw [hweek, hcomb, habs]
    rw [hcount] at hsplit
    omega

theorem absence_derivation_witness :
    (∀ r ∈ rowsPL, r.date = day1 → (r.status = "present" ∨ r.status = "late")) ∧
    ((rowsPL.filter (fun r => r.date == day1)).map (fun r => r.employeeId)).Nodup ∧
    (∀ r ∈ rowsPL, r.date = day1 → r.employeeId ∈ emps5.map (fun e => e.id)) ∧
    (emps5.map (fun e => e.id)).Nodup ∧
    ((getDashboardStats emps5 rowsPL day1).absences
        = absentDerived emps5 rowsPL day1 ∧
      (weeklyStatsForDate emps5 rowsPL day1).absent
        = absentDerived emps5 rowsPL day1) :=
  ⟨by decide, by decide, by decide, by decide,
    absence_derivation emps5 rowsPL day1 (by decide) (by decide)
      (by decide) (by decide)⟩

/-- C6 counterexample: a reachable state — the seed writes a row with the
literal status `absent` — with five enrolled employees and three rows for
the date, where the derived count "enrolled employees with no row" is 2 but
both reports charge 3 absences: the code counts `totalEmployees` minus the
`present`/`late` rows, not the employees lacking a row. -/
theorem absence_report_counterexample :
    emps5.length = 5 ∧ rowsMixed.length = 3 ∧
    (∀ r ∈ rowsMixed, r.date = day1) ∧
    absentDerived emps5 rowsMixed day1 = 2 ∧
    (getDashboardStats emps5 rowsMixed day1).absences = 3 ∧
    (weeklyStatsForDate emps5 rowsMixed day1).absent = 3 := by
  refine ⟨rfl, rfl, by decide, by decide, by decide, by decide⟩

theorem recognizeConfidence_random_never_one_witness :
    (0 : ℚ) ≤ 0 ∧ (0 : ℚ) < 1 ∧
    (mkRat 85 100 ≤ recognizeConfidence 0 ∧
      recognizeConfidence 0 < mkRat 99 100 ∧
      recognizeConfidence 0 ≠ 1) :=
  ⟨le_refl 0, by norm_num,
    recognizeConfidence_random_never_one 0 (le_refl 0) (by norm_num)⟩

/-- C10: embedding texts that are not JSON arrays — the seeded
`JSON.stringify("sample_embedding_1")` value and the fake
`embedding_<id>_<ts>` strings written at enrollment — parse to `none` and
are silently skipped, so an employee carrying one is never the result of
`getEmployeeByEmbedding`; a probe that does not parse makes the lookup
return `none` rather than throw. -/
theorem parseEmbedding_skips_non_arrays :
    parseEmbedding (some "\"sample_embedding_1\"") = none ∧
    parseEmbedding (some "embedding_e1_1759900000000") = none ∧
    (∀ probe candidates e, e ∈ candidates →
      parseEmbedding e.faceEmbedding = none →
      getEmployeeByEmbedding probe candidates ≠ some e) ∧
    (∀ s candidates, parseEmbedding (some s) = none →
      getEmployeeByEmbedding s candidates = none) := by
  refine ⟨by decide, by decide, ?_, ?_⟩
  · intro probe candidates e hmem hnone hres
    unfold getEmployeeByEmbedding at hres
    cases hparse : parseEmbedding (some probe) with
    | none =>
      rw [hparse] at hres
      exact Option.noConfusion hres
    | some target =>
      rw [hparse] at hres
      have h2 : (candidates.foldl (considerCandidate target) none).map Prod.fst
          = some e := hres
      cases hfold : candidates.foldl (considerCandidate target) none with
      | none =>
        rw [hfold] at h2
        exact Option.noConfusion h2
      | some p =>
        rw [hfold] at h2
        have hbase : matchInv target [] none := by
          intro x hx emb hemb
          exact absurd hx (List.not_mem_nil x)
        have hinv := matchInv_foldl target candidates [] none hbase
        rw [hfold, List.nil_append] at hinv
        obtain ⟨_, ⟨emb, hpe, _⟩, _, _⟩ := hinv
        have hp1 : p.1 = e := by simpa using h2
        rw [hp1, hnone] at hpe
        exact Option.noConfusion hpe
  · intro s candidates h
    simp [getEmployeeByEmbedding, h]

theorem parseEmbedding_skips_non_arrays_witness :
    (empSample ∈ [empSample] ∧ parseEmbedding empSample.faceEmbedding = none ∧
      getEmployeeByEmbedding "[0,0]" [empSample] ≠ some empSample) ∧
    (parseEmbedding (some "embedding_e1_1759900000000") = none ∧
      getEmployeeByEmbedding "embedding_e1_1759900000000" [empA] = none) :=
  ⟨⟨by decide, by decide,
      parseEmbedding_skips_non_arrays.2.2.1 "[0,0]" [empSample] empSample
        (by decide) (by decide)⟩,
    ⟨by decide,
      parseEmbedding_skips_non_arrays.2.2.2 "embedding_e1_1759900000000" [empA]
        (by decide)⟩⟩

end AttendanceAI
